import Mathlib

/-!
Verification development for the content projector configured in
`sourcebit.js`.  The file embeds, as Lean functions, the three pieces of
logic of that configuration:

* the middleware `transform` that serializes the first `ThemeStyle` entry
  to the fixed file `content/data/style.json`;
* the `commonProps` option, which finds the first `Config` entry;
* the `pages` option, which filters entries to the allow-listed model
  names and enriches each with a computed `urlPath` and `pageCssClasses`.

JavaScript entries are open records; the embedding keeps the fields the
code reads as structure fields (`__metadata.modelName`, the slug, the
metadata keys `urlPath` / `pageCssClasses` that the spread can overwrite)
and carries the remaining fields as association lists, so that frame
properties ("every other field is preserved") are expressible.  Accessing
`page.__metadata.modelName` on an entry whose metadata record is absent
throws a `TypeError` in JavaScript; the embedding models this with
`Except`, an `Entry.metadata` of `none` standing for the absent record.

The helper functions `getPageUrl` and `cssClassesFromUrlPath` are imported
by `sourcebit.js` from `src/utils/page-utils`, a file that is not part of
the available sources; they are modelled from the spec, as marked on their
doc comments.
-/

/-- The `__metadata` record of a content entry.  `modelName` is the model
tag (absent when the entry lacks the tag), `id` the unique identifier;
`urlPath` and `pageCssClasses` are the metadata keys that the `pages()`
spread writes (they may already be present on the input, in which case the
spread overwrites them); `extra` carries any remaining metadata fields. -/
structure Metadata where
  modelName : Option String
  id : Option String
  urlPath : Option String
  pageCssClasses : Option (List String)
  extra : List (String × String)
deriving DecidableEq

/-- A content entry: the optional `__metadata` record (`none` models a
malformed entry whose metadata record is absent) and the remaining
top-level fields (such as `slug`) as an association list. -/
structure Entry where
  metadata : Option Metadata
  fields : List (String × String)
deriving DecidableEq

/-- The data object handed to a sourcebit middleware: the entry array plus
the other fields of the data object, which the middleware never touches. -/
structure Data where
  objects : List Entry
  rest : List (String × String)
deriving DecidableEq

/-- The error message standing for the `TypeError` thrown by JavaScript
when `page.__metadata.modelName` is read on an entry without metadata. -/
def typeErrorMsg : String := "TypeError: cannot read modelName of undefined"

/-- The allow-list of page model names from `pages()` in `sourcebit.js`. -/
def allowList : List String := ["PageLayout", "PostFeedLayout", "PostLayout"]

/-- The test `['PageLayout', 'PostFeedLayout', 'PostLayout'].includes(page.__metadata.modelName)`
on a present metadata record: an absent `modelName` compares unequal to
every element, as `includes(undefined)` does. -/
def allowTest (m : Metadata) : Bool :=
  match m.modelName with
  | some n => allowList.contains n
  | none => false

/-- The filter predicate of `pages()` as a total function on entries (an
entry without a metadata record never passes); used to state what the
filter computes when no `TypeError` is thrown. -/
def entryAllowed (e : Entry) : Bool :=
  match e.metadata with
  | some m => allowTest m
  | none => false

/-- The test `page.__metadata.modelName === 'Config'` of `commonProps`. -/
def entryIsConfig (e : Entry) : Bool :=
  match e.metadata with
  | some m => decide (m.modelName = some "Config")
  | none => false

/-- The test `object.__metadata.modelName === 'ThemeStyle'` of the
middleware `transform`. -/
def entryIsThemeStyle (e : Entry) : Bool :=
  match e.metadata with
  | some m => decide (m.modelName = some "ThemeStyle")
  | none => false

/-- Every entry of the collection carries a metadata record, as the data
model of the spec requires of a `ContentEntry`. -/
def wellFormed (objects : List Entry) : Prop :=
  ∀ e ∈ objects, e.metadata.isSome

instance (objects : List Entry) : Decidable (wellFormed objects) :=
  inferInstanceAs (Decidable (∀ e ∈ objects, e.metadata.isSome = true))

/-- Character-level split of a string on `/`, as `urlPath.split('/')`
does: `splitAux acc l` returns the segments of `l`, with `acc` the
(reversed) characters of the segment currently being read. -/
def splitAux (acc : List Char) : List Char → List String
  | [] => [String.mk acc.reverse]
  | c :: cs =>
    if c = '/' then String.mk acc.reverse :: splitAux [] cs
    else splitAux (c :: acc) cs

/-- Split a string on `/` into its (possibly empty) segments. -/
def splitOnSlash (s : String) : List String :=
  splitAux [] s.data

/-- Sanitize one character of a class token: lowercase it and replace it
by `-` when the result is not alphanumeric. -/
def sanitizeChar (c : Char) : Char :=
  if c.toLower.isAlphanum then c.toLower else '-'

/-- Sanitize a path segment into a class token: lowercase it and replace
every non-alphanumeric character with `-`. -/
def sanitizeClassToken (s : String) : String :=
  String.mk (s.data.map sanitizeChar)

/-- Modelled from the spec: `cssClassesFromUrlPath` lives in
`src/utils/page-utils`, which is absent from the available sources.  Per
the spec it splits `urlPath` on `/`, discards empty segments, emits a
sanitized class token (lowercase, non-alphanumeric characters replaced
with `-`) for each remaining segment, and emits the single sentinel token
`"home"` when no segments remain. -/
def cssClassesFromUrlPath (urlPath : String) : List String :=
  if (splitOnSlash urlPath).filter (fun s => s ≠ "") = [] then ["home"]
  else ((splitOnSlash urlPath).filter (fun s => s ≠ "")).map sanitizeClassToken

/-- First character of the string is `/`. -/
def isRooted (s : String) : Bool :=
  match s.data with
  | c :: _ => c = '/'
  | [] => false

/-- Modelled from the spec: `getPageUrl` lives in `src/utils/page-utils`,
which is absent from the available sources.  Per the spec the url path is
derived from the entry's own slug field (the model-specific parent or
section combination is an external collaborator contract the spec leaves
open), and the spec's invariant requires the result to be a `/`-rooted
path, so a slug without the leading `/` is rooted here.  An absent slug is
treated as the empty slug. -/
def getPageUrl (page : Entry) : String :=
  let slug := (page.fields.lookup "slug").getD ""
  if isRooted slug then slug else String.mk ('/' :: slug.data)

/-- The body of the `pages()` map: destructure `__metadata` off the entry,
compute `urlPath`, and rebuild the entry with a metadata record that
spreads the original one and then writes `urlPath` and `pageCssClasses`
over it, keeping every other top-level field. -/
def enrichPage (page : Entry) : Entry :=
  let urlPath := getPageUrl page
  { metadata := page.metadata.map (fun m =>
      { m with urlPath := some urlPath,
               pageCssClasses := some (cssClassesFromUrlPath urlPath) }),
    fields := page.fields }

/-- The filter of `pages()`: evaluates the allow-list test left to right,
throwing the `TypeError` at the first entry whose metadata record is
absent, as `objects.filter((page) => [...].includes(page.__metadata.modelName))`
does. -/
def filterPages : List Entry → Except String (List Entry)
  | [] => .ok []
  | e :: es =>
    match e.metadata with
    | none => .error typeErrorMsg
    | some m =>
      (filterPages es).map (fun tail => if allowTest m then e :: tail else tail)

/-- The `pages()` option of `sourcebit-target-next`: filter to the
allow-listed model names, then map every selected entry through the
enrichment. -/
def pages (objects : List Entry) : Except String (List Entry) :=
  (filterPages objects).map (fun pageObjects => pageObjects.map enrichPage)

/-- The `commonProps()` option: `objects.find((page) => page.__metadata.modelName === 'Config')`,
returning the first matching entry, `none` when none matches, and the
`TypeError` when a metadata-less entry is reached first. -/
def commonProps : List Entry → Except String (Option Entry)
  | [] => .ok none
  | e :: es =>
    match e.metadata with
    | none => .error typeErrorMsg
    | some m =>
      if m.modelName = some "Config" then .ok (some e) else commonProps es

/-- The common props object `{ site }` together with the page list, the
`{ pages, props }` output of the projector. -/
structure Output where
  site : Option Entry
  pageList : List Entry
deriving DecidableEq

/-- The projector proper: `commonProps` and `pages` on the same entry
snapshot, assembled into the `{ pages, props }` output. -/
def project (objects : List Entry) : Except String Output :=
  match commonProps objects, pages objects with
  | .ok site, .ok ps => .ok { site := site, pageList := ps }
  | .error msg, _ => .error msg
  | _, .error msg => .error msg

/-- The file system as an association list from path to file content. -/
def FS : Type := List (String × String)

instance : DecidableEq FS := inferInstanceAs (DecidableEq (List (String × String)))

/-- Read a path from the modelled file system. -/
def readFS (fs : FS) (p : String) : Option String :=
  List.lookup p fs

/-- Write a path in the modelled file system, replacing any previous
content at that path. -/
def writeFS (fs : FS) (p c : String) : FS :=
  (p, c) :: List.filter (fun kv => kv.1 ≠ p) fs

/-- The fixed well-known path the middleware writes. -/
def styleFilePath : String := "content/data/style.json"

/-- Serialization of a metadata record, standing in for its part of
`JSON.stringify(object, null, 4)`; the exact bytes of the JSON encoding
are not modelled, only that the written content is a function of the
serialized entry alone. -/
def stringifyMetadata (m : Metadata) : String :=
  "modelName=" ++ toString m.modelName ++ ";id=" ++ toString m.id ++
    ";urlPath=" ++ toString m.urlPath ++ ";pageCssClasses=" ++
    toString m.pageCssClasses ++ ";extra=" ++ toString m.extra

/-- Serialization of an entry, standing in for `JSON.stringify(object, null, 4)`. -/
def stringifyEntry (e : Entry) : String :=
  "metadata=" ++ (match e.metadata with
    | some m => stringifyMetadata m
    | none => "undefined") ++ ";fields=" ++ toString e.fields

/-- The `data.objects.find` loop of the middleware: walk the entries in
order; at the first `ThemeStyle` entry write its serialization to the
style file and stop; throw the `TypeError` at a metadata-less entry. -/
def applyThemeStyle (fs : FS) : List Entry → Except String FS
  | [] => .ok fs
  | e :: es =>
    match e.metadata with
    | none => .error typeErrorMsg
    | some m =>
      if m.modelName = some "ThemeStyle" then
        .ok (writeFS fs styleFilePath (stringifyEntry e))
      else applyThemeStyle fs es

/-- The middleware `transform`: run the find-and-write loop over
`data.objects` for its file-system effect and return the data object
unchanged. -/
def transform (fs : FS) (data : Data) : Except String (FS × Data) :=
  (applyThemeStyle fs data.objects).map (fun fs2 => (fs2, data))

/-- One full run of the pipeline after the source plugin: the middleware
`transform` followed by the `sourcebit-target-next` projector. -/
def runPipeline (fs : FS) (data : Data) : Except String (FS × Output) :=
  match transform fs data with
  | .error msg => .error msg
  | .ok (fs2, data2) =>
    match project data2.objects with
    | .error msg => .error msg
    | .ok out => .ok (fs2, out)

/-- The file-system effect the middleware has on a well-formed collection:
the first `ThemeStyle` entry (and only it) is serialized to the style
file; with no such entry the file system is untouched. -/
def themeWrite (fs : FS) (objects : List Entry) : FS :=
  match objects.find? entryIsThemeStyle with
  | some t => writeFS fs styleFilePath (stringifyEntry t)
  | none => fs

/-! Concrete sample entries used by the witnesses and counterexamples. -/

def eC1a : Entry := ⟨some ⟨some "Config", some "c0", none, none, []⟩, []⟩

def eC1b : Entry := ⟨some ⟨some "PageLayout", some "w1", none, none, []⟩, [("slug", "/w")]⟩

def eC3bad : Entry := ⟨none, [("slug", "/oops")]⟩

def eC3good : Entry := ⟨some ⟨some "PageLayout", some "g1", none, none, []⟩, [("slug", "/g")]⟩

def eC3noName : Entry := ⟨some ⟨none, some "n1", none, none, []⟩, []⟩

def eC4a : Entry := ⟨some ⟨some "PageLayout", some "a4", none, none, []⟩, []⟩

def eC4cfg : Entry := ⟨some ⟨some "Config", some "c4", none, none, []⟩, []⟩

def eC4cfg2 : Entry := ⟨some ⟨some "Config", some "c4b", none, none, []⟩, []⟩

def eC5cfg : Entry := ⟨some ⟨some "Config", some "c1", none, none, []⟩, []⟩

def eC5page : Entry := ⟨some ⟨some "PageLayout", some "p1", none, none, []⟩, [("slug", "/about")]⟩

def eC5pageOut : Entry :=
  ⟨some ⟨some "PageLayout", some "p1", some "/about", some ["about"], []⟩, [("slug", "/about")]⟩

def eC6 : Entry := ⟨some ⟨some "PostLayout", some "b6", none, none, []⟩, [("slug", "blog/x")]⟩

def eC6out : Entry :=
  ⟨some ⟨some "PostLayout", some "b6", some "/blog/x", some ["blog", "x"], []⟩, [("slug", "blog/x")]⟩

def eC7theme : Entry := ⟨some ⟨some "ThemeStyle", some "t7", none, none, []⟩, []⟩

def eC7page : Entry := ⟨some ⟨some "PageLayout", some "p7", none, none, []⟩, [("slug", "/p7")]⟩

def dataC7 : Data := ⟨[eC7theme, eC7page], [("other", "field")]⟩

def eC7pageOut : Entry :=
  ⟨some ⟨some "PageLayout", some "p7", some "/p7", some ["p7"], []⟩, [("slug", "/p7")]⟩

def fsC7 : FS := [(styleFilePath, stringifyEntry eC7theme)]

def oC7 : Output := ⟨none, [eC7pageOut]⟩

def eC8t : Entry := ⟨some ⟨some "ThemeStyle", some "t8", none, none, []⟩, [("color", "red")]⟩

def dataC8 : Data := ⟨[eC8t], []⟩

def eC9 : Entry :=
  ⟨some ⟨some "PageLayout", some "p9", some "/old", none, []⟩, [("slug", "/new")]⟩

def eC9out : Entry :=
  ⟨some ⟨some "PageLayout", some "p9", some "/new", some ["new"], []⟩, [("slug", "/new")]⟩

def eC10t1 : Entry := ⟨some ⟨some "ThemeStyle", some "t10a", none, none, []⟩, [("color", "blue")]⟩

def eC10t2 : Entry := ⟨some ⟨some "ThemeStyle", some "t10b", none, none, []⟩, [("color", "green")]⟩

def dataC10 : Data := ⟨[eC10t1, eC10t2], []⟩

theorem filterPages_wf (objects : List Entry) (h : wellFormed objects) :
    filterPages objects = .ok (objects.filter entryAllowed) := by
  induction objects with
  | nil => rfl
  | cons e es ih =>
    obtain ⟨m, hm⟩ := Option.isSome_iff_exists.mp (h e (List.mem_cons_self e es))
    have ih2 := ih (fun x hx => h x (List.mem_cons_of_mem e hx))
    by_cases ha : allowTest m = true
    · simp [filterPages, hm, ih2, List.filter_cons, entryAllowed, ha, Except.map]
    · simp [filterPages, hm, ih2, List.filter_cons, entryAllowed, ha, Except.map]

theorem pages_wf (objects : List Entry) (h : wellFormed objects) :
    pages objects = .ok ((objects.filter entryAllowed).map enrichPage) := by
  simp [pages, filterPages_wf objects h, Except.map]

theorem commonProps_wf (objects : List Entry) (h : wellFormed objects) :
    commonProps objects = .ok (objects.find? entryIsConfig) := by
  induction objects with
  | nil => rfl
  | cons e es ih =>
    obtain ⟨m, hm⟩ := Option.isSome_iff_exists.mp (h e (List.mem_cons_self e es))
    have ih2 := ih (fun x hx => h x (List.mem_cons_of_mem e hx))
    by_cases hc : m.modelName = some "Config"
    · have hp : entryIsConfig e = true := by simp [entryIsConfig, hm, hc]
      simp [commonProps, hm, hc, List.find?_cons_of_pos _ hp]
    · have hp : entryIsConfig e = false := by simp [entryIsConfig, hm, hc]
      simp [commonProps, hm, hc, ih2, List.find?_cons_of_neg, hp]

theorem applyThemeStyle_wf (fs : FS) (objects : List Entry) (h : wellFormed objects) :
    applyThemeStyle fs objects = .ok (themeWrite fs objects) := by
  induction objects with
  | nil => rfl
  | cons e es ih =>
    obtain ⟨m, hm⟩ := Option.isSome_iff_exists.mp (h e (List.mem_cons_self e es))
    have ih2 := ih (fun x hx => h x (List.mem_cons_of_mem e hx))
    by_cases ht : m.modelName = some "ThemeStyle"
    · have hp : entryIsThemeStyle e = true := by simp [entryIsThemeStyle, hm, ht]
      simp [applyThemeStyle, hm, ht, themeWrite, List.find?_cons_of_pos _ hp]
    · have hp : entryIsThemeStyle e = false := by simp [entryIsThemeStyle, hm, ht]
      simp [applyThemeStyle, hm, ht, ih2, themeWrite, List.find?_cons_of_neg, hp]

theorem filterPages_ok_mem (objects l : List Entry) (h : filterPages objects = .ok l) :
    ∀ x ∈ l, x ∈ objects ∧ ∃ m, x.metadata = some m ∧ allowTest m = true := by
  induction objects generalizing l with
  | nil =>
    simp only [filterPages] at h
    cases h
    simp
  | cons e es ih =>
    cases hm : e.metadata with
    | none => simp [filterPages, hm] at h
    | some m =>
      cases hfe : filterPages es with
      | error msg => simp [filterPages, hm, hfe, Except.map] at h
      | ok tail =>
        simp only [filterPages, hm, hfe, Except.map] at h
        cases h
        intro x hx
        by_cases ha : allowTest m = true
        · rw [if_pos ha] at hx
          rcases List.mem_cons.mp hx with hxe | hxt
          · subst hxe
            exact ⟨List.mem_cons_self x es, m, hm, ha⟩
          · obtain ⟨hin, hrest⟩ := ih tail hfe x hxt
            exact ⟨List.mem_cons_of_mem e hin, hrest⟩
        · rw [if_neg ha] at hx
          obtain ⟨hin, hrest⟩ := ih tail hfe x hx
          exact ⟨List.mem_cons_of_mem e hin, hrest⟩

theorem getPageUrl_rooted (page : Entry) : isRooted (getPageUrl page) = true := by
  unfold getPageUrl
  by_cases h : isRooted ((page.fields.lookup "slug").getD "") = true
  · simp [h]
  · simp only [h, Bool.false_eq_true, if_false]
    rfl

theorem lookup_filter_ne (fs : List (String × String)) (p q : String) (h : q ≠ p) :
    List.lookup q (fs.filter (fun kv => !decide (kv.1 = p))) = List.lookup q fs := by
  induction fs with
  | nil => rfl
  | cons kv rest ih =>
    obtain ⟨k, v⟩ := kv
    by_cases hk : k = p
    · subst hk
      have hq : (q == k) = false := by simp [h]
      simp [List.filter_cons, List.lookup, hq, ih]
    · by_cases hqk : q = k
      · subst hqk
        simp [List.filter_cons, List.lookup, hk]
      · have hq : (q == k) = false := by simp [hqk]
        simp [List.filter_cons, List.lookup, hk, hq, ih]

theorem readFS_writeFS_self (fs : FS) (p c : String) :
    readFS (writeFS fs p c) p = some c := by
  simp [readFS, writeFS, List.lookup]

theorem readFS_writeFS_ne (fs : FS) (p c q : String) (h : q ≠ p) :
    readFS (writeFS fs p c) q = readFS fs q := by
  have hq : (q == p) = false := by simp [h]
  simp [readFS, writeFS, List.lookup, hq, lookup_filter_ne fs p q h]

theorem writeFS_writeFS_same (fs : FS) (p c : String) :
    writeFS (writeFS fs p c) p c = writeFS fs p c := by
  simp [writeFS, List.filter_cons, List.filter_filter]

theorem cssClassesFromUrlPath_ne_nil (p : String) : cssClassesFromUrlPath p ≠ [] := by
  unfold cssClassesFromUrlPath
  by_cases h : (splitOnSlash p).filter (fun s => s ≠ "") = []
  · rw [if_pos h]
    simp
  · rw [if_neg h]
    intro hc
    exact h (List.map_eq_nil_iff.mp hc)


theorem allowTest_spec (m : Metadata) (h : allowTest m = true) :
    ∃ n, m.modelName = some n ∧ n ∈ allowList := by
  unfold allowTest at h
  cases hm : m.modelName with
  | none => rw [hm] at h; cases h
  | some n =>
    rw [hm] at h
    exact ⟨n, rfl, by simpa using h⟩

theorem entryAllowed_spec (e : Entry) (h : entryAllowed e = true) :
    ∃ m, e.metadata = some m ∧ allowTest m = true := by
  unfold entryAllowed at h
  cases hm : e.metadata with
  | none => rw [hm] at h; cases h
  | some m =>
    rw [hm] at h
    exact ⟨m, rfl, h⟩

theorem enrichPage_metadata_eq (e : Entry) (m : Metadata) (hm : e.metadata = some m) :
    (enrichPage e).metadata =
      some { m with urlPath := some (getPageUrl e),
                    pageCssClasses := some (cssClassesFromUrlPath (getPageUrl e)) } ∧
    (enrichPage e).fields = e.fields := by
  simp [enrichPage, hm]

theorem themeWrite_idem (fs : FS) (objects : List Entry) :
    themeWrite (themeWrite fs objects) objects = themeWrite fs objects := by
  unfold themeWrite
  cases hf : objects.find? entryIsThemeStyle with
  | none => rfl
  | some t => exact writeFS_writeFS_same fs styleFilePath (stringifyEntry t)

theorem runPipeline_wf (fs : FS) (data : Data) (h : wellFormed data.objects) :
    runPipeline fs data =
      .ok (themeWrite fs data.objects,
           { site := data.objects.find? entryIsConfig,
             pageList := (data.objects.filter entryAllowed).map enrichPage }) := by
  simp [runPipeline, transform, applyThemeStyle_wf fs data.objects h, Except.map,
    project, commonProps_wf data.objects h, pages_wf data.objects h]

/-- Claim C1: for every input collection, `pages()` returns exactly the
order-preserving allow-list filter of the input (each selected entry
passed through the per-entry enrichment, which keeps its `modelName`);
hence the output is no longer than the input and every output entry's
`modelName` is in the allow-list `{PageLayout, PostFeedLayout, PostLayout}`. -/
theorem pages_ordered_allowlist_filter (objects : List Entry) (h : wellFormed objects) :
    pages objects = .ok ((objects.filter entryAllowed).map enrichPage) ∧
    ∀ out, pages objects = .ok out →
      out.length ≤ objects.length ∧
      ∀ e ∈ out, ∃ m, e.metadata = some m ∧ ∃ n, m.modelName = some n ∧ n ∈ allowList := by
  refine ⟨pages_wf objects h, ?_⟩
  intro out hout
  rw [pages_wf objects h] at hout
  cases hout
  constructor
  · calc ((objects.filter entryAllowed).map enrichPage).length
        = (objects.filter entryAllowed).length := List.length_map _ _
      _ ≤ objects.length := List.length_filter_le _ _
  · intro e he
    obtain ⟨x, hxmem, hxe⟩ := List.mem_map.mp he
    obtain ⟨m, hm, ha⟩ := entryAllowed_spec x (List.mem_filter.mp hxmem).2
    obtain ⟨n, hn, hnmem⟩ := allowTest_spec m ha
    subst hxe
    exact ⟨_, (enrichPage_metadata_eq x m hm).1, n, hn, hnmem⟩

theorem pages_ordered_allowlist_filter_witness :
    wellFormed [eC1a, eC1b] ∧
    (pages [eC1a, eC1b] = .ok (([eC1a, eC1b].filter entryAllowed).map enrichPage) ∧
     ∀ out, pages [eC1a, eC1b] = .ok out →
       out.length ≤ ([eC1a, eC1b] : List Entry).length ∧
       ∀ e ∈ out, ∃ m, e.metadata = some m ∧ ∃ n, m.modelName = some n ∧ n ∈ allowList) :=
  ⟨by decide, pages_ordered_allowlist_filter [eC1a, eC1b] (by decide)⟩

/-- Claim C2: `cssClassesFromUrlPath` splits the url path on `/`, discards
empty segments, sanitizes each remaining segment (lowercase, every
non-alphanumeric character replaced with `-`), and falls back to the
single sentinel token `"home"` when no segments remain; in particular the
root path gives `["home"]` and `/blog/my-post` gives `["blog", "my-post"]`. -/
theorem cssClassesFromUrlPath_spec :
    (∀ p : String, cssClassesFromUrlPath p =
      if (splitOnSlash p).filter (fun s => s ≠ "") = [] then ["home"]
      else ((splitOnSlash p).filter (fun s => s ≠ "")).map sanitizeClassToken) ∧
    (∀ s : String, sanitizeClassToken s =
      String.mk (s.data.map (fun c => if c.toLower.isAlphanum then c.toLower else '-'))) ∧
    cssClassesFromUrlPath "/" = ["home"] ∧
    cssClassesFromUrlPath "/blog/my-post" = ["blog", "my-post"] ∧
    cssClassesFromUrlPath "/HELLO_World" = ["hello-world"] :=
  ⟨fun _ => rfl, fun _ => rfl, by decide, by decide, by decide⟩

/-- Claim C3, counterexample: an entry whose metadata record is absent is
not skipped with a diagnostic; the whole `pages()` call fails with the
`TypeError`, so nothing is produced for the remaining well-formed entry
and processing of the batch is fatal. -/
theorem pages_fatal_on_missing_metadata :
    pages [eC3bad, eC3good] = .error typeErrorMsg ∧ entryAllowed eC3good = true := by
  constructor
  · rfl
  · decide

/-- Claim C3, amended: an entry whose metadata record is present but lacks
the `modelName` tag is silently skipped (the code emits no diagnostic) and
the remaining entries are still processed; an entry missing the metadata
record entirely is fatal to the whole batch (see the counterexample). -/
theorem pages_skips_entries_without_modelName (objects : List Entry) (h : wellFormed objects) :
    pages objects = .ok ((objects.filter entryAllowed).map enrichPage) ∧
    ∀ e ∈ objects, (∃ m, e.metadata = some m ∧ m.modelName = none) →
      e ∉ objects.filter entryAllowed := by
  refine ⟨pages_wf objects h, ?_⟩
  intro e he hex hc
  obtain ⟨m, hm, hname⟩ := hex
  have hall := (List.mem_filter.mp hc).2
  simp [entryAllowed, hm, allowTest, hname] at hall

theorem pages_skips_entries_without_modelName_witness :
    wellFormed [eC3noName, eC3good] ∧
    (pages [eC3noName, eC3good] =
      .ok (([eC3noName, eC3good].filter entryAllowed).map enrichPage) ∧
     ∀ e ∈ [eC3noName, eC3good], (∃ m, e.metadata = some m ∧ m.modelName = none) →
       e ∉ [eC3noName, eC3good].filter entryAllowed) :=
  ⟨by decide, pages_skips_entries_without_modelName [eC3noName, eC3good] (by decide)⟩

/-- Claim C5: on the two-entry collection of the spec's end-to-end example
(a `Config` entry `c1` and a `PageLayout` entry `p1` with slug `/about`),
the projector outputs the `Config` entry as the common `site` prop and a
single page record carrying `urlPath` `/about` and `pageCssClasses`
`["about"]` inside its metadata. -/
theorem project_end_to_end :
    project [eC5cfg, eC5page] = .ok { site := some eC5cfg, pageList := [eC5pageOut] } := by
  rfl

/-- Claim C4: `commonProps()` returns the first entry in input order whose
`modelName` is `Config`; on an empty collection, and on a collection in
which no entry carries that tag, it returns the absent value `none`, which
is a successful result and not an error. -/
theorem commonProps_first_config (objects : List Entry) (h : wellFormed objects) :
    commonProps objects = .ok (objects.find? entryIsConfig) ∧
    commonProps ([] : List Entry) = .ok none ∧
    ((∀ e ∈ objects, entryIsConfig e = false) → commonProps objects = .ok none) := by
  refine ⟨commonProps_wf objects h, rfl, ?_⟩
  intro hnone
  rw [commonProps_wf objects h, List.find?_eq_none.mpr]
  intro x hx
  simp [hnone x hx]

theorem commonProps_first_config_witness :
    wellFormed [eC4a, eC4cfg, eC4cfg2] ∧
    (commonProps [eC4a, eC4cfg, eC4cfg2] = .ok ([eC4a, eC4cfg, eC4cfg2].find? entryIsConfig) ∧
     commonProps ([] : List Entry) = .ok none ∧
     ((∀ e ∈ [eC4a, eC4cfg, eC4cfg2], entryIsConfig e = false) →
       commonProps [eC4a, eC4cfg, eC4cfg2] = .ok none)) ∧
    commonProps [eC4a, eC4cfg, eC4cfg2] = .ok (some eC4cfg) :=
  ⟨by decide, commonProps_first_config [eC4a, eC4cfg, eC4cfg2] (by decide), by rfl⟩

/-- Claim C6: every entry produced by `pages()` carries inside its
metadata a `urlPath` that begins with `/` and a non-empty
`pageCssClasses` list (the root path yields the sentinel `home` class). -/
theorem pages_urlPath_rooted_css_nonempty (objects out : List Entry) (e : Entry)
    (hp : pages objects = .ok out) (he : e ∈ out) :
    ∃ m, e.metadata = some m ∧
      (∃ u, m.urlPath = some u ∧ isRooted u = true) ∧
      (∃ cls, m.pageCssClasses = some cls ∧ cls ≠ []) := by
  unfold pages at hp
  cases hfl : filterPages objects with
  | error msg => rw [hfl] at hp; cases hp
  | ok l =>
    rw [hfl] at hp
    cases hp
    obtain ⟨x, hxmem, hxe⟩ := List.mem_map.mp he
    obtain ⟨_, m, hm, _⟩ := filterPages_ok_mem objects l hfl x hxmem
    subst hxe
    refine ⟨_, (enrichPage_metadata_eq x m hm).1, ⟨getPageUrl x, rfl, getPageUrl_rooted x⟩,
      ⟨cssClassesFromUrlPath (getPageUrl x), rfl, cssClassesFromUrlPath_ne_nil _⟩⟩

theorem pages_urlPath_rooted_css_nonempty_witness :
    pages [eC6] = .ok [eC6out] ∧ eC6out ∈ [eC6out] ∧
    (∃ m, eC6out.metadata = some m ∧
      (∃ u, m.urlPath = some u ∧ isRooted u = true) ∧
      (∃ cls, m.pageCssClasses = some cls ∧ cls ≠ [])) :=
  ⟨by rfl, by decide,
   pages_urlPath_rooted_css_nonempty [eC6] [eC6out] eC6out (by rfl) (by decide)⟩

/-- Claim C7: one run of the pipeline (the `ThemeStyle` middleware
followed by `commonProps` and `pages`) is a pure function of the input
snapshot: a second run on the same collection produces the identical
`{ pages, props }` output, and even leaves the file system exactly where
the first run put it. -/
theorem runPipeline_idempotent (fs : FS) (data : Data) (fs1 fs2 : FS) (o1 o2 : Output)
    (h : wellFormed data.objects)
    (h1 : runPipeline fs data = .ok (fs1, o1))
    (h2 : runPipeline fs1 data = .ok (fs2, o2)) :
    o2 = o1 ∧ fs2 = fs1 := by
  rw [runPipeline_wf fs data h] at h1
  injection h1 with h1'
  injection h1' with hfs ho
  subst hfs
  subst ho
  rw [runPipeline_wf (themeWrite fs data.objects) data h] at h2
  injection h2 with h2'
  injection h2' with hfs2 ho2
  subst hfs2
  subst ho2
  exact ⟨rfl, themeWrite_idem fs data.objects⟩

theorem runPipeline_idempotent_witness :
    wellFormed dataC7.objects ∧
    runPipeline ([] : FS) dataC7 = .ok (fsC7, oC7) ∧
    runPipeline fsC7 dataC7 = .ok (fsC7, oC7) ∧
    (oC7 = oC7 ∧ fsC7 = fsC7) :=
  ⟨by decide, by rfl, by rfl,
   runPipeline_idempotent [] dataC7 fsC7 fsC7 oC7 oC7 (by decide) (by rfl) (by rfl)⟩

/-- Claim C8: the middleware `transform` returns the data object it was
given unchanged, touches no path of the file system other than the fixed
well-known `content/data/style.json`, and when the collection has a
`ThemeStyle` entry that file holds the serialization of the first one. -/
theorem transform_style_frame (fs : FS) (data : Data) (h : wellFormed data.objects) :
    ∃ fs2, transform fs data = .ok (fs2, data) ∧
      (∀ p, p ≠ styleFilePath → readFS fs2 p = readFS fs p) ∧
      (∀ t, data.objects.find? entryIsThemeStyle = some t →
        readFS fs2 styleFilePath = some (stringifyEntry t)) := by
  refine ⟨themeWrite fs data.objects, ?_, ?_, ?_⟩
  · simp [transform, applyThemeStyle_wf fs data.objects h, Except.map]
  · intro p hp
    unfold themeWrite
    cases hf : data.objects.find? entryIsThemeStyle with
    | none => rfl
    | some t => exact readFS_writeFS_ne fs styleFilePath (stringifyEntry t) p hp
  · intro t ht
    unfold themeWrite
    rw [ht]
    exact readFS_writeFS_self fs styleFilePath (stringifyEntry t)

theorem transform_style_frame_witness :
    wellFormed dataC8.objects ∧
    (∃ fs2, transform ([] : FS) dataC8 = .ok (fs2, dataC8) ∧
      (∀ p, p ≠ styleFilePath → readFS fs2 p = readFS ([] : FS) p) ∧
      (∀ t, dataC8.objects.find? entryIsThemeStyle = some t →
        readFS fs2 styleFilePath = some (stringifyEntry t))) :=
  ⟨by decide, transform_style_frame ([] : FS) dataC8 (by decide)⟩

/-- Claim C9, counterexample: on an entry whose metadata record already
carries a `urlPath` field, `pages()` does not keep that existing field:
the spread overwrites it with the computed value, here replacing the
stored `/old` with the computed `/new`. -/
theorem pages_replaces_existing_urlPath_field :
    pages [eC9] = .ok [eC9out] ∧
    eC9.metadata.map Metadata.urlPath = some (some "/old") ∧
    eC9out.metadata.map Metadata.urlPath = some (some "/new") :=
  ⟨by rfl, by rfl, by rfl⟩

/-- Claim C9, amended: every record output by `pages()` is the enrichment
of a selected input entry: all fields outside the metadata record are
preserved unchanged, and the output metadata is the original metadata
record with only its `urlPath` and `pageCssClasses` keys overwritten by
the computed values (every other metadata field is preserved); the
embedding is a pure function of the input, which is never mutated. -/
theorem pages_merges_metadata_overwriting_computed (objects out : List Entry)
    (hp : pages objects = .ok out) :
    ∀ e2 ∈ out, ∃ e, e ∈ objects ∧ ∃ m, e.metadata = some m ∧
      e2.fields = e.fields ∧
      e2.metadata = some { m with urlPath := some (getPageUrl e),
                                  pageCssClasses := some (cssClassesFromUrlPath (getPageUrl e)) } := by
  unfold pages at hp
  cases hfl : filterPages objects with
  | error msg => rw [hfl] at hp; cases hp
  | ok l =>
    rw [hfl] at hp
    cases hp
    intro e2 he2
    obtain ⟨x, hxmem, hxe⟩ := List.mem_map.mp he2
    obtain ⟨hxin, m, hm, _⟩ := filterPages_ok_mem objects l hfl x hxmem
    subst hxe
    exact ⟨x, hxin, m, hm, (enrichPage_metadata_eq x m hm).2,
      (enrichPage_metadata_eq x m hm).1⟩

theorem pages_merges_metadata_overwriting_computed_witness :
    pages [eC9] = .ok [eC9out] ∧
    (∀ e2 ∈ [eC9out], ∃ e, e ∈ [eC9] ∧ ∃ m, e.metadata = some m ∧
      e2.fields = e.fields ∧
      e2.metadata = some { m with urlPath := some (getPageUrl e),
                                  pageCssClasses := some (cssClassesFromUrlPath (getPageUrl e)) }) :=
  ⟨by rfl, pages_merges_metadata_overwriting_computed [eC9] [eC9out] (by rfl)⟩

/-- Claim C10: the middleware serializes only the first `ThemeStyle` entry
in input order to `content/data/style.json` (later ones are ignored: the
written file system is a function of the first such entry alone), and when
no `ThemeStyle` entry is present the file system is returned untouched. -/
theorem transform_writes_first_theme_only (fs : FS) (data : Data) (h : wellFormed data.objects) :
    (∀ t, data.objects.find? entryIsThemeStyle = some t →
      transform fs data = .ok (writeFS fs styleFilePath (stringifyEntry t), data)) ∧
    (data.objects.find? entryIsThemeStyle = none →
      transform fs data = .ok (fs, data)) := by
  constructor
  · intro t ht
    simp [transform, applyThemeStyle_wf fs data.objects h, Except.map, themeWrite, ht]
  · intro ht
    simp [transform, applyThemeStyle_wf fs data.objects h, Except.map, themeWrite, ht]

theorem transform_writes_first_theme_only_witness :
    wellFormed dataC10.objects ∧
    dataC10.objects.find? entryIsThemeStyle = some eC10t1 ∧
    ((∀ t, dataC10.objects.find? entryIsThemeStyle = some t →
      transform ([] : FS) dataC10 = .ok (writeFS ([] : FS) styleFilePath (stringifyEntry t), dataC10)) ∧
     (dataC10.objects.find? entryIsThemeStyle = none →
      transform ([] : FS) dataC10 = .ok (([] : FS), dataC10))) :=
  ⟨by decide, by rfl, transform_writes_first_theme_only ([] : FS) dataC10 (by decide)⟩
